import Mathlib

/-!
Verification of the RemedyAtlas data pipeline (`src/app.py`): CSV loading
with encoding fallback, coordinate coercion/validation with swap repair,
derived display fields (evidence badge, caution flag, tooltip), filter
masks, and the de-overlap jitter engine.

Conventions of the embedding:
* a pandas DataFrame is a list of typed rows (columns relevant to the
  verified components); column-wise pandas operations are modelled
  row-wise, which is observationally equal for the element-wise
  operations used here;
* the result of `pd.to_numeric(..., errors="coerce")` on a coordinate
  cell is an `Option ℚ` (`none` models NaN / a missing value; pandas
  comparisons with NaN, `abs() > 90`, `<= 90`, `between`, are all
  `False`, hence `none` maps to `false` in every predicate below);
* a text cell that may be missing is a `Cell` (`na` models a float NaN
  read from an empty CSV field, `str s` a string value);
* Python exceptions are modelled with `Except PyErr`;
* floating point arithmetic of the jitter engine is modelled over ℝ.
-/

/-- A cell of a text column: either a missing value (pandas NaN) or a string. -/
inductive Cell where
  | na : Cell
  | str : String → Cell
deriving DecidableEq

/-- Python exceptions that the modelled code can raise. -/
inductive PyErr where
  | attributeError : PyErr
deriving DecidableEq

/-- Python `str(x)`: NaN prints as "nan"; a string is itself. -/
def cellStr : Cell → String
  | Cell.na => "nan"
  | Cell.str s => s

/-- Python `s.lower()` (character-wise lowercasing). -/
def lowerStr (s : String) : String := String.mk (s.data.map Char.toLower)

/-- The whitespace characters stripped by Python `str.strip()`. -/
def isPySpace (c : Char) : Bool :=
  c == ' ' || c == '\t' || c == '\n' || c == '\r' || c == '\x0b' || c == '\x0c'

/-- Python `s.strip()`: whitespace removed from both ends. -/
def stripStr (s : String) : String :=
  String.mk (((s.data.dropWhile isPySpace).reverse.dropWhile isPySpace).reverse)

/-- `prefAt n h` is true when the char list `n` occurs at the start of `h`. -/
def prefAt : List Char → List Char → Bool
  | [], _ => true
  | _ :: _, [] => false
  | n :: ns, h :: hs => n == h && prefAt ns hs

/-- Python's substring test `n in h`, on char lists. -/
def hasSub (n : List Char) : List Char → Bool
  | [] => prefAt n []
  | h :: hs => prefAt n (h :: hs) || hasSub n hs

/-- Python `needle in hay` on strings. -/
def strIn (needle hay : String) : Bool := hasSub needle.toList hay.toList

-- ---------------- Constants (src/app.py lines 65-86) ----------------

/-- The canonical required columns, `REQUIRED` in `src/app.py`. -/
def REQUIRED : List String :=
  ["ailment", "plant_common", "plant_scientific", "preparation",
   "region", "country", "latitude", "longitude",
   "tradition_notes", "cautions", "evidence_level", "source_url"]

/-- The evidence badge vocabulary, `EVIDENCE_EMOJI` in `src/app.py`. -/
def EVIDENCE_EMOJI : List (String × String) :=
  [("some/clinical", "🟢 some/clinical"),
   ("mixed", "🟡 mixed"),
   ("limited/low", "🟠 limited/low"),
   ("folk-tradition", "⚪ folk/tradition"),
   ("not-applicable", "⚫ n/a")]

/-- The caution keyword list, `CAUTION_KEYWORDS` in `src/app.py`. -/
def CAUTION_KEYWORDS : List String :=
  ["pregnan", "anticoagul", "bleeding", "aspirin", "blood pressure",
   "liver", "renal", "children", "pediatric", "toxic", "avoid"]

-- ---------------- Loader / normalizer (src/app.py lines 89-106) ----------------

/-- A loaded delimited-text table: header names plus raw string rows. -/
structure Table where
  cols : List String
  cells : List (List String)
deriving DecidableEq

/-- `c.strip().lower().replace(" ", "_")` of `_normalize_headers`. -/
def normalizeName (c : String) : String := (lowerStr (stripStr c)).replace " " "_"

/-- The alias rewriting of `_normalize_headers`. -/
def applyAlias (c : String) : String :=
  if c == "a_ilment" then "ailment"
  else if c == "plant_name" then "plant_common"
  else c

/-- `_normalize_headers` of `src/app.py`. -/
def _normalize_headers (t : Table) : Table :=
  { t with cols := (t.cols.map normalizeName).map applyAlias }

/-- Outcomes of `pd.read_csv` as observed by `load_csv`'s handlers. -/
inductive ReadErr where
  | fileNotFound : ReadErr
  | otherError : ReadErr
deriving DecidableEq

/-- The encoding preference order tried by `load_csv`. -/
def ENCODINGS : List String := ["utf-8", "utf-8-sig"]

/-- The `for enc in (...)` loop body of `load_csv`: `rd enc path` models
`pd.read_csv(path, sep=None, engine="python", encoding=enc)`. -/
def load_csv_go (rd : String → String → Except ReadErr Table) (path : String) :
    List String → Table
  | [] => ⟨REQUIRED, []⟩
  | enc :: rest =>
    match rd enc path with
    | Except.ok df => _normalize_headers df
    | Except.error ReadErr.fileNotFound => ⟨REQUIRED, []⟩
    | Except.error ReadErr.otherError => load_csv_go rd path rest

/-- `load_csv` of `src/app.py`, parameterized by the external reader. -/
def load_csv (rd : String → String → Except ReadErr Table) (path : String) : Table :=
  load_csv_go rd path ENCODINGS

-- ---------------- Validator / repairer (src/app.py lines 108-149) ----------------

/-- One row of the remedies DataFrame after the numeric coercion of the
`latitude`/`longitude` columns (`pd.to_numeric(..., errors="coerce")`):
coordinates are `Option ℚ` with `none` for NaN. -/
structure RawRow where
  ailment : String
  plant_common : String
  plant_scientific : String
  preparation : String
  region : String
  country : String
  latitude : Option ℚ
  longitude : Option ℚ
  tradition_notes : String
  cautions : Cell
  evidence_level : Cell
  source_url : String
deriving DecidableEq

/-- `series.abs() > b` on one cell: NaN compares `False`. -/
def absGt (x : Option ℚ) (b : ℚ) : Bool :=
  match x with
  | none => false
  | some v => decide (b < |v|)

/-- `series.abs() <= b` on one cell: NaN compares `False`. -/
def absLe (x : Option ℚ) (b : ℚ) : Bool :=
  match x with
  | none => false
  | some v => decide (|v| ≤ b)

/-- `series.between(lo, hi)` on one cell (inclusive); NaN gives `False`. -/
def numBetween (x : Option ℚ) (lo hi : ℚ) : Bool :=
  match x with
  | none => false
  | some v => decide (lo ≤ v) && decide (v ≤ hi)

/-- `looks_swapped` of `coerce_and_validate`:
`(df["latitude"].abs() > 90) & (df["longitude"].abs() <= 90)`. -/
def looksSwapped (r : RawRow) : Bool :=
  absGt r.latitude 90 && absLe r.longitude 90

/-- The swap assignment of `coerce_and_validate` on one row: rows flagged
by `looksSwapped` have their two coordinate fields exchanged. -/
def swapRow (r : RawRow) : RawRow :=
  if looksSwapped r then
    { r with latitude := r.longitude, longitude := r.latitude }
  else r

/-- `valid_mask` of `coerce_and_validate`:
`df["latitude"].between(-90, 90) & df["longitude"].between(-180, 180)`. -/
def validRow (r : RawRow) : Bool :=
  numBetween r.latitude (-90) 90 && numBetween r.longitude (-180) 180

/-- The row-admission predicate in the spec's words: the final latitude is
a number in [-90, 90] and the final longitude a number in [-180, 180]. -/
def admissible (r : RawRow) : Prop :=
  match r.latitude, r.longitude with
  | some la, some lo => -90 ≤ la ∧ la ≤ 90 ∧ -180 ≤ lo ∧ lo ≤ 180
  | _, _ => False

instance (r : RawRow) : Decidable (admissible r) := by
  unfold admissible
  match r.latitude, r.longitude with
  | some la, some lo => exact inferInstance
  | some _, none => exact inferInstance
  | none, some _ => exact inferInstance
  | none, none => exact inferInstance

/-- `badge` of `coerce_and_validate`. On a NaN cell, Python evaluates
`(ev or "")` to NaN (a NaN float is truthy), and then `NaN.strip()`
raises `AttributeError`; on a string it strips, lowercases and looks the
value up in `EVIDENCE_EMOJI`, defaulting to the folk-tradition badge. -/
def badge (ev : Cell) : Except PyErr String :=
  match ev with
  | Cell.na => Except.error PyErr.attributeError
  | Cell.str s =>
    Except.ok (((EVIDENCE_EMOJI.lookup (lowerStr (stripStr s))).getD "⚪ folk/tradition"))

/-- `has_caution` of `coerce_and_validate`: case-insensitive raw substring
scan of `str(text)` against `CAUTION_KEYWORDS`. -/
def has_caution (text : Cell) : String :=
  if CAUTION_KEYWORDS.any (fun k => strIn k (lowerStr (cellStr text))) then "⚠️" else "—"

/-- The full set of derived display columns of one retained row. -/
structure CRow where
  raw : RawRow
  evidence_badge : String
  caution_flag : String
  _tooltip : String
deriving DecidableEq

/-- The derived-column computation of `coerce_and_validate` on one
retained row (evidence badge, caution flag, tooltip). Only the badge can
raise; hence applying it row-wise raises exactly when the column-wise
`apply` of the source does. -/
def deriveRow (r : RawRow) : Except PyErr CRow :=
  match badge r.evidence_level with
  | Except.error e => Except.error e
  | Except.ok b =>
    Except.ok
      { raw := r
        evidence_badge := b
        caution_flag := has_caution r.cautions
        _tooltip := r.country ++ "<br/>" ++ r.plant_common ++ " <i>(" ++
          r.plant_scientific ++ ")</i><br/>" ++ r.preparation }

/-- Element-wise `Series.apply` with a fallible function: the first raised
exception propagates. -/
def mapExcept (f : α → Except ε β) : List α → Except ε (List β)
  | [] => Except.ok []
  | x :: xs =>
    match f x with
    | Except.error e => Except.error e
    | Except.ok y =>
      match mapExcept f xs with
      | Except.error e => Except.error e
      | Except.ok ys => Except.ok (y :: ys)

/-- `coerce_and_validate` of `src/app.py` (the numeric coercion is already
reflected in the `Option ℚ` coordinate fields). Returns the cleaned rows
together with the repaired count and the dropped count that the source
reports through `st.warning`. -/
def coerce_and_validate (df : List RawRow) :
    Except PyErr (List CRow × ℕ × ℕ) :=
  let n_swapped := (df.filter looksSwapped).length
  let repaired := df.map swapRow
  let dropped := (repaired.filter (fun r => ! validRow r)).length
  let kept := repaired.filter validRow
  match mapExcept deriveRow kept with
  | Except.error e => Except.error e
  | Except.ok rows => Except.ok (rows, n_swapped, dropped)

-- ---------------- Filter masks (src/app.py lines 208-223) ----------------

/-- `df["ailment"].eq(ailment)` on one row. -/
def ailmentMask (a : String) (r : CRow) : Bool := r.raw.ailment == a

/-- `df["region"].eq(region)` on one row. -/
def regionMask (g : String) (r : CRow) : Bool := r.raw.region == g

/-- `df["evidence_level"].str.lower().eq(ev.lower())` on one row; a NaN
cell gives `False` (pandas `na` propagation compared with `eq`). -/
def evidenceMask (e : String) (r : CRow) : Bool :=
  match r.raw.evidence_level with
  | Cell.na => false
  | Cell.str s => lowerStr s == lowerStr e

/-- `df["country"].str.contains(q.strip(), case=False, na=False)` on one
row: case-insensitive substring containment. -/
def countryMask (q : String) (r : CRow) : Bool :=
  strIn (lowerStr (stripStr q)) (lowerStr r.raw.country)

/-- The sidebar filter application: each selected filter conjoins its mask
(`mask &= ...`), then `df.loc[mask]`. A `none` stands for the "All ..."
selection (or an empty search box), which leaves the mask unchanged. -/
def applyFilters (a g e q : Option String) (df : List CRow) : List CRow :=
  df.filter (fun r =>
    (match a with | none => true | some x => ailmentMask x r) &&
    (match g with | none => true | some x => regionMask x r) &&
    (match e with | none => true | some x => evidenceMask x r) &&
    (match q with | none => true | some x => countryMask x r))

-- ---------------- Jitter engine (src/app.py lines 151-169) ----------------

/-- The columns of the filtered table that `jitter_overlaps` reads:
group key `(country, ailment)` and the float coordinates. -/
structure VRow where
  country : String
  ailment : String
  latitude : ℝ
  longitude : ℝ

/-- A row extended with the display-only jittered coordinate columns
`lat_j`, `lon_j`. -/
structure JRow where
  row : VRow
  lat_j : ℝ
  lon_j : ℝ

/-- `max(np.cos(np.deg2rad(lat0)), 1e-6)`. -/
noncomputable def lonScale (lat0 : ℝ) : ℝ :=
  max (Real.cos (lat0 * Real.pi / 180)) (1 / 1000000)

/-- The per-group body of `jitter_overlaps`: a singleton keeps its
coordinates; a larger group is laid out at the `len(g)` equally spaced
angles `np.linspace(0, 2*pi, len(g), endpoint=False)`, the i-th row (in
table order) getting angle `2*pi*i/n` around the group's first row. -/
noncomputable def jitterGroup (R : ℝ) (g : List VRow) : List JRow :=
  match g with
  | [] => []
  | [r] => [⟨r, r.latitude, r.longitude⟩]
  | r0 :: r1 :: rest =>
    let n : ℕ := (r0 :: r1 :: rest).length
    let lat0 := r0.latitude
    let lon0 := r0.longitude
    (r0 :: r1 :: rest).mapIdx (fun i r =>
      ⟨r, lat0 + R * Real.sin (2 * Real.pi * i / n),
          lon0 + (R * Real.cos (2 * Real.pi * i / n)) / lonScale lat0⟩)

/-- The `groupby(["country","ailment"])` key of a row. -/
def rowKey (r : VRow) : String × String := (r.country, r.ailment)

/-- Lexicographic comparison of char lists, the order Python uses to
compare strings (by code point). -/
def charListLt : List Char → List Char → Bool
  | [], [] => false
  | [], _ :: _ => true
  | _ :: _, [] => false
  | a :: as, b :: bs => decide (a < b) || (a == b && charListLt as bs)

/-- Sorting order on group keys: lexicographic on the string pair, as
pandas sorts group-key tuples. -/
def keyLe (a b : String × String) : Bool :=
  charListLt a.1.data b.1.data ||
    (a.1 == b.1 && (charListLt a.2.data b.2.data || a.2 == b.2))

/-- `keyLe` as a relation, for sorting. -/
def keyRel (a b : String × String) : Prop := keyLe a b = true

instance : DecidableRel keyRel :=
  fun a b => inferInstanceAs (Decidable (keyLe a b = true))

/-- The distinct group keys of the table, in sorted order (pandas
`groupby` with the default `sort=True`). -/
def groupKeys (df : List VRow) : List (String × String) :=
  List.insertionSort keyRel ((df.map rowKey).dedup)

/-- The rows of one group, in table order. -/
def groupRows (df : List VRow) (k : String × String) : List VRow :=
  df.filter (fun r => rowKey r == k)

/-- `jitter_overlaps` of `src/app.py` (with its `deg_radius` parameter R):
empty input is returned unchanged; otherwise the groups are jittered and
concatenated in sorted key order (`pd.concat` over the `groupby` parts). -/
noncomputable def jitter_overlaps (R : ℝ) (df : List VRow) : List JRow :=
  if df.isEmpty then []
  else (groupKeys df).flatMap (fun k => jitterGroup R (groupRows df k))

-- ---------------- Helper lemmas and concrete rows ----------------

/-- A remedy row with given coordinates and empty text fields, for
concrete test inputs. -/
def coordRow (la lo : Option ℚ) : RawRow :=
  ⟨"", "", "", "", "", "", la, lo, "", Cell.str "", Cell.str "", ""⟩

/-- Applying the swap assignment twice equals applying it once. -/
theorem swapRow_swapRow (r : RawRow) : swapRow (swapRow r) = swapRow r := by
  by_cases h : looksSwapped r = true
  · have hs : swapRow r = { r with latitude := r.longitude, longitude := r.latitude } := by
      simp [swapRow, h]
    have hns : looksSwapped { r with latitude := r.longitude, longitude := r.latitude } = false := by
      unfold looksSwapped absGt absLe at h ⊢
      rcases hlo : r.longitude with _ | lo
      · simp [hlo] at h
      · rcases hla : r.latitude with _ | la
        · simp [hla] at h
        · simp only [hla, hlo, Bool.and_eq_true, decide_eq_true_eq] at h
          simp only [Bool.and_eq_false_iff, decide_eq_false_iff_not, not_lt]
          exact Or.inl h.2
    rw [hs]
    simp [swapRow, hns]
  · simp only [Bool.not_eq_true] at h
    simp [swapRow, h]

/-- C2: the swap-repair step exchanges latitude and longitude exactly for
rows with `abs(latitude) > 90` and `abs(longitude) <= 90`, leaves all
other rows unchanged, is idempotent on the whole repaired table, and maps
the concrete row (latitude=120, longitude=45) to (latitude=45,
longitude=120). -/
theorem c2_swap_repair_exact_and_idempotent (df : List RawRow) (r : RawRow) :
    (looksSwapped r = true →
      swapRow r = { r with latitude := r.longitude, longitude := r.latitude }) ∧
    (looksSwapped r = false → swapRow r = r) ∧
    (df.map swapRow).map swapRow = df.map swapRow ∧
    swapRow (coordRow (some 120) (some 45)) = coordRow (some 45) (some 120) := by
  refine ⟨fun h => by simp [swapRow, h], fun h => by simp [swapRow, h], ?_, by decide⟩
  rw [List.map_map]
  exact List.map_congr_left fun a _ => swapRow_swapRow a

/-- Witness for C2 at the concrete row (120, 45). -/
theorem c2_swap_repair_witness :
    looksSwapped (coordRow (some 120) (some 45)) = true ∧
    swapRow (coordRow (some 120) (some 45)) =
      { coordRow (some 120) (some 45) with latitude := some 45, longitude := some 120 } :=
  ⟨by decide,
   (c2_swap_repair_exact_and_idempotent [] (coordRow (some 120) (some 45))).1 (by decide)⟩

/-- C9: the row (latitude=200, longitude=45) satisfies the swap predicate,
is swapped to (45, 200), is counted as repaired, and is then dropped
because its post-swap longitude 200 is outside [-180, 180]: the repaired
and dropped counts overlap on it. -/
theorem c9_repaired_row_can_still_be_dropped :
    looksSwapped (coordRow (some 200) (some 45)) = true ∧
    swapRow (coordRow (some 200) (some 45)) = coordRow (some 45) (some 200) ∧
    validRow (coordRow (some 45) (some 200)) = false ∧
    coerce_and_validate [coordRow (some 200) (some 45)] = Except.ok ([], 1, 1) :=
  ⟨by decide, by decide, by decide, rfl⟩

/-- The row used to exhibit the evidence-badge crash: valid coordinates,
but a missing (NaN) `evidence_level` cell. -/
def naEvidenceRow : RawRow :=
  ⟨"", "", "", "", "", "", some 10, some 20, "", Cell.str "", Cell.na, ""⟩

/-- C3 (divergence witness): on a missing `evidence_level` cell the badge
derivation raises `AttributeError` (Python's `(ev or "")` keeps the truthy
NaN float, and `NaN.strip()` fails), so `coerce_and_validate` raises
instead of assigning the folk-tradition badge. -/
theorem c3_badge_raises_on_missing_evidence :
    badge Cell.na = Except.error PyErr.attributeError ∧
    coerce_and_validate [naEvidenceRow] = Except.error PyErr.attributeError :=
  ⟨rfl, rfl⟩

/-- The Boolean admission mask of the source agrees with the spec-level
admission predicate. -/
theorem validRow_iff_admissible (r : RawRow) : validRow r = true ↔ admissible r := by
  unfold validRow numBetween admissible
  rcases hla : r.latitude with _ | la <;> rcases hlo : r.longitude with _ | lo <;>
    simp [hla, hlo, and_assoc]

/-- A successful element-wise apply returns one output per input. -/
theorem mapExcept_ok_length {f : α → Except ε β} :
    ∀ {xs : List α} {ys : List β}, mapExcept f xs = Except.ok ys → ys.length = xs.length := by
  intro xs
  induction xs with
  | nil => intro ys h; simp [mapExcept] at h; simp [← h]
  | cons x xs ih =>
    intro ys h
    unfold mapExcept at h
    rcases hx : f x with e | y <;> rw [hx] at h
    · exact absurd h (by simp)
    · rcases hxs : mapExcept f xs with e | ys' <;> rw [hxs] at h
      · exact absurd h (by simp)
      · cases h
        simp [ih hxs]

/-- Every output of a successful element-wise apply comes from an input. -/
theorem mapExcept_ok_mem {f : α → Except ε β} :
    ∀ {xs : List α} {ys : List β}, mapExcept f xs = Except.ok ys →
      ∀ y ∈ ys, ∃ x ∈ xs, f x = Except.ok y := by
  intro xs
  induction xs with
  | nil => intro ys h; simp [mapExcept] at h; simp [h]
  | cons x xs ih =>
    intro ys h
    unfold mapExcept at h
    rcases hx : f x with e | y <;> rw [hx] at h
    · exact absurd h (by simp)
    · rcases hxs : mapExcept f xs with e | ys' <;> rw [hxs] at h
      · exact absurd h (by simp)
      · cases h
        intro z hz
        rcases List.mem_cons.mp hz with hz | hz
        · exact ⟨x, List.mem_cons_self x xs, by rw [hx, hz]⟩
        · rcases ih hxs z hz with ⟨x', hx', hfx'⟩
          exact ⟨x', List.mem_cons_of_mem x hx', hfx'⟩

/-- The derive step only adds display columns: the source row is kept. -/
theorem deriveRow_ok_raw {r : RawRow} {c : CRow} (h : deriveRow r = Except.ok c) :
    c.raw = r := by
  unfold deriveRow at h
  rcases hb : badge r.evidence_level with e | b <;> rw [hb] at h
  · exact absurd h (by simp)
  · cases h; rfl

/-- C1: on a successful run, every retained row has latitude in [-90, 90]
and longitude in [-180, 180]; the reported dropped count equals exactly
the number of post-repair rows failing the admission predicate (missing
coordinates included, since they are never admissible), and retained plus
dropped rows account for the whole input. -/
theorem c1_admission_bounds_and_dropped_count (df : List RawRow)
    (out : List CRow) (nrep ndrop : ℕ)
    (h : coerce_and_validate df = Except.ok (out, nrep, ndrop)) :
    (∀ c ∈ out, ∃ la lo : ℚ, c.raw.latitude = some la ∧ c.raw.longitude = some lo ∧
      -90 ≤ la ∧ la ≤ 90 ∧ -180 ≤ lo ∧ lo ≤ 180) ∧
    ndrop = ((df.map swapRow).filter (fun r => decide (¬ admissible r))).length ∧
    out.length + ndrop = df.length := by
  unfold coerce_and_validate at h
  rcases hm : mapExcept deriveRow ((df.map swapRow).filter validRow) with e | rows <;>
    simp only [hm] at h
  · exact absurd h (by simp)
  · cases h
    refine ⟨?_, ?_, ?_⟩
    · intro c hc
      rcases mapExcept_ok_mem hm c hc with ⟨x, hx, hfx⟩
      have hraw : c.raw = x := deriveRow_ok_raw hfx
      have hv : validRow x = true := (List.mem_filter.mp hx).2
      have hadm : admissible x := (validRow_iff_admissible x).mp hv
      unfold admissible at hadm
      rcases hla : x.latitude with _ | la <;> rcases hlo : x.longitude with _ | lo <;>
        rw [hla, hlo] at hadm
      · exact absurd hadm (by simp)
      · exact absurd hadm (by simp)
      · exact absurd hadm (by simp)
      · exact ⟨la, lo, by rw [hraw, hla], by rw [hraw, hlo],
          hadm.1, hadm.2.1, hadm.2.2.1, hadm.2.2.2⟩
    · congr 1
      apply List.filter_congr
      intro r _
      by_cases hr : admissible r
      · simp [hr, (validRow_iff_admissible r).mpr hr]
      · have : validRow r = false := by
          rcases hv : validRow r with _ | _
          · rfl
          · exact absurd ((validRow_iff_admissible r).mp hv) hr
        simp [hr, this]
    · have h1 : out.length = ((df.map swapRow).filter validRow).length :=
        mapExcept_ok_length hm
      have h2 : ((df.map swapRow).filter validRow).length +
          ((df.map swapRow).filter (fun r => ! validRow r)).length =
          (df.map swapRow).length := by
        have hp := (List.filter_append_perm validRow (df.map swapRow)).length_eq
        rw [List.length_append] at hp
        exact hp
      rw [h1]
      rw [h2]
      exact List.length_map df swapRow

/-- Witness for C1: a three-row input (one good row, one swapped row, one
unparseable row) runs successfully with one repair and one drop. -/
theorem c1_admission_witness :
    coerce_and_validate
        [coordRow (some 40) (some 100), coordRow (some 120) (some 45),
         coordRow none (some 10)] =
      Except.ok
        ([⟨coordRow (some 40) (some 100), "⚪ folk/tradition", "—", "<br/> <i>()</i><br/>"⟩,
          ⟨coordRow (some 45) (some 120), "⚪ folk/tradition", "—", "<br/> <i>()</i><br/>"⟩],
         1, 1) ∧
    ([⟨coordRow (some 40) (some 100), "⚪ folk/tradition", "—", "<br/> <i>()</i><br/>"⟩,
      ⟨coordRow (some 45) (some 120), "⚪ folk/tradition", "—", "<br/> <i>()</i><br/>"⟩] :
        List CRow).length + 1 = 3 := by
  constructor
  · rfl
  · have := (c1_admission_bounds_and_dropped_count
      [coordRow (some 40) (some 100), coordRow (some 120) (some 45), coordRow none (some 10)]
      [⟨coordRow (some 40) (some 100), "⚪ folk/tradition", "—", "<br/> <i>()</i><br/>"⟩,
       ⟨coordRow (some 45) (some 120), "⚪ folk/tradition", "—", "<br/> <i>()</i><br/>"⟩]
      1 1 rfl).2.2
    simp at this
    simp [this]

/-- `prefAt` tests exactly the prefix property. -/
theorem prefAt_iff : ∀ (n h : List Char), prefAt n h = true ↔ ∃ t, h = n ++ t := by
  intro n
  induction n with
  | nil => intro h; simp [prefAt]
  | cons a as ih =>
    intro h
    cases h with
    | nil => simp [prefAt]
    | cons b bs =>
      simp only [prefAt, Bool.and_eq_true, beq_iff_eq, ih bs]
      constructor
      · rintro ⟨rfl, t, rfl⟩
        exact ⟨t, rfl⟩
      · rintro ⟨t, ht⟩
        cases ht
        exact ⟨rfl, t, rfl⟩

/-- `hasSub` tests exactly Python's substring containment. -/
theorem hasSub_iff (n : List Char) : ∀ h, hasSub n h = true ↔ ∃ s t, h = s ++ n ++ t := by
  intro h
  induction h with
  | nil =>
    simp only [hasSub, prefAt_iff]
    constructor
    · rintro ⟨t, ht⟩
      exact ⟨[], t, ht⟩
    · rintro ⟨s, t, hst⟩
      rcases List.append_eq_nil.mp (List.append_eq_nil.mp hst.symm).1 with ⟨rfl, rfl⟩
      exact ⟨t, hst⟩
  | cons c hs ih =>
    simp only [hasSub, Bool.or_eq_true, prefAt_iff, ih]
    constructor
    · rintro (⟨t, ht⟩ | ⟨s, t, hst⟩)
      · exact ⟨[], t, by simp [ht]⟩
      · exact ⟨c :: s, t, by simp [hst]⟩
    · rintro ⟨s, t, hst⟩
      cases s with
      | nil => exact Or.inl ⟨t, by simpa using hst⟩
      | cons c' s' =>
        rw [List.cons_append, List.cons_append] at hst
        cases hst
        exact Or.inr ⟨s', t, rfl⟩

/-- `strIn` on strings, in terms of the underlying char lists. -/
theorem strIn_iff (needle hay : String) :
    strIn needle hay = true ↔ ∃ s t, hay.toList = s ++ needle.toList ++ t := by
  unfold strIn
  exact hasSub_iff needle.toList hay.toList

/-- C10: the caution scan matches the keywords as raw substrings of the
lower-cased text, not as whole words: any text whose lowercasing contains
a listed keyword anywhere sets the flag ("deliver" matches "liver",
"childrens books" matches "children"), the scanned prefixes match
inflected forms ("pregnant", "toxicology"), matching is case-insensitive,
and keyword-free text leaves the flag unset. -/
theorem c10_caution_scan_is_raw_substring :
    (∀ text : Cell, has_caution text = "⚠️" ↔
      ∃ k ∈ CAUTION_KEYWORDS, ∃ s t,
        (lowerStr (cellStr text)).toList = s ++ k.toList ++ t) ∧
    has_caution (Cell.str "deliver") = "⚠️" ∧
    has_caution (Cell.str "childrens books") = "⚠️" ∧
    has_caution (Cell.str "pregnant women") = "⚠️" ∧
    has_caution (Cell.str "a toxicology report") = "⚠️" ∧
    has_caution (Cell.str "AVOID in PREGNANCY") = "⚠️" ∧
    has_caution (Cell.str "tea with honey") = "—" := by
  refine ⟨?_, by decide, by decide, by decide, by decide, by decide, by decide⟩
  intro text
  have hflag : has_caution text = "⚠️" ↔
      (CAUTION_KEYWORDS.any (fun k => strIn k (lowerStr (cellStr text)))) = true := by
    unfold has_caution
    split
    · simp_all
    · rename_i hfalse
      simp only [Bool.not_eq_true] at hfalse
      constructor
      · intro hcontra
        exact absurd hcontra (by decide)
      · intro hcontra
        rw [hfalse] at hcontra
        exact absurd hcontra (by simp)
  rw [hflag, List.any_eq_true]
  constructor
  · rintro ⟨k, hk, hin⟩
    exact ⟨k, hk, (strIn_iff k _).mp hin⟩
  · rintro ⟨k, hk, hsub⟩
    exact ⟨k, hk, (strIn_iff k _).mpr hsub⟩

/-- C7: if the source file is missing or no attempted encoding can read
it, `load_csv` returns the empty table with exactly the canonical
required columns (and, being a total function, raises nothing). -/
theorem c7_load_csv_fallback (rd : String → String → Except ReadErr Table) (path : String)
    (h : ∀ enc ∈ ENCODINGS, ∀ t, rd enc path ≠ Except.ok t) :
    load_csv rd path = ⟨REQUIRED, []⟩ := by
  have h1 := h "utf-8" (by simp [ENCODINGS])
  have h2 := h "utf-8-sig" (by simp [ENCODINGS])
  unfold load_csv ENCODINGS load_csv_go
  rcases hr1 : rd "utf-8" path with e1 | t1
  · cases e1
    · rfl
    · unfold load_csv_go
      rcases hr2 : rd "utf-8-sig" path with e2 | t2
      · cases e2 <;> rfl
      · exact absurd hr2 (h2 t2)
  · exact absurd hr1 (h1 t1)

/-- Witness for C7: a reader that always reports a missing file yields the
canonical empty table. -/
theorem c7_load_csv_fallback_witness :
    (∀ enc ∈ ENCODINGS, ∀ t : Table,
      (fun (_ _ : String) => (Except.error ReadErr.fileNotFound : Except ReadErr Table))
        enc "data/remedies.csv" ≠ Except.ok t) ∧
    load_csv (fun _ _ => Except.error ReadErr.fileNotFound) "data/remedies.csv" =
      ⟨REQUIRED, []⟩ := by
  have hp : ∀ enc ∈ ENCODINGS, ∀ t : Table,
      (fun (_ _ : String) => (Except.error ReadErr.fileNotFound : Except ReadErr Table))
        enc "data/remedies.csv" ≠ Except.ok t := by
    intro enc _ t hcontra
    exact Except.noConfusion hcontra
  exact ⟨hp, c7_load_csv_fallback _ "data/remedies.csv" hp⟩

/-- C6: the ailment exact-match filter and the case-insensitive country
substring filter compose conjunctively: applying both equals the
set-intersection of the row sets each filter selects on its own. -/
theorem c6_filters_compose_as_intersection (df : List CRow) (a q : String) :
    { r : CRow | r ∈ applyFilters (some a) none none (some q) df } =
      { r : CRow | r ∈ applyFilters (some a) none none none df } ∩
      { r : CRow | r ∈ applyFilters none none none (some q) df } := by
  ext r
  simp only [applyFilters, Set.mem_setOf_eq, Set.mem_inter_iff, List.mem_filter,
    Bool.and_eq_true]
  tauto

-- ---------------- Jitter engine lemmas ----------------

/-- The jitter step only adds the display columns: projecting the source
row back out of a jittered group returns the group unchanged. -/
theorem jitterGroup_map_row (R : ℝ) (g : List VRow) :
    (jitterGroup R g).map JRow.row = g := by
  match g with
  | [] => rfl
  | [r] => rfl
  | r0 :: r1 :: rest =>
    apply List.ext_getElem
    · simp [jitterGroup]
    · intro n h1 h2
      simp only [jitterGroup, List.getElem_map, List.getElem_mapIdx]

/-- Every member of a jittered group carries a source row of the group. -/
theorem row_mem_of_mem_jitterGroup {R : ℝ} {g : List VRow} {j : JRow}
    (h : j ∈ jitterGroup R g) : j.row ∈ g := by
  have := List.mem_map_of_mem JRow.row h
  rwa [jitterGroup_map_row] at this

/-- Members of the jittered group of key `k` have key `k`. -/
theorem key_of_mem_jitterGroup {R : ℝ} {df : List VRow} {k : String × String} {j : JRow}
    (h : j ∈ jitterGroup R (groupRows df k)) : rowKey j.row = k := by
  have hrow : j.row ∈ groupRows df k := row_mem_of_mem_jitterGroup h
  unfold groupRows at hrow
  have := (List.mem_filter.mp hrow).2
  simpa using this

/-- Pointwise-equal functions give equal flat maps. -/
theorem flatMap_congr {α β : Type} {l : List α} {f g : α → List β}
    (h : ∀ a ∈ l, f a = g a) : l.flatMap f = l.flatMap g := by
  induction l with
  | nil => rfl
  | cons a l ih =>
    rw [List.flatMap_cons, List.flatMap_cons, h a (List.mem_cons_self a l),
      ih (fun b hb => h b (List.mem_cons_of_mem a hb))]

/-- Filtering a keyed concatenation by one of its (distinct) keys returns
exactly that key's block. -/
theorem flatMap_filter_single {K β : Type} [BEq K] [LawfulBEq K]
    (f : K → List β) (key : β → K) (k : K) :
    ∀ ks : List K, ks.Nodup → k ∈ ks → (∀ k' ∈ ks, ∀ b ∈ f k', key b = k') →
      (ks.flatMap f).filter (fun b => key b == k) = f k := by
  intro ks
  induction ks with
  | nil => intro _ hk; simp at hk
  | cons k' ks ih =>
    intro hnd hk hkeys
    rw [List.flatMap_cons, List.filter_append]
    rcases List.mem_cons.mp hk with rfl | hk
    · have h1 : (f k).filter (fun b => key b == k) = f k :=
        List.filter_eq_self.mpr fun b hb => by
          simp [hkeys k (List.mem_cons_self _ _) b hb]
      have h2 : (ks.flatMap f).filter (fun b => key b == k) = [] := by
        apply List.filter_eq_nil_iff.mpr
        intro b hb
        rcases List.mem_flatMap.mp hb with ⟨k'', hk'', hbk⟩
        have hbkey : key b = k'' := hkeys k'' (List.mem_cons_of_mem _ hk'') b hbk
        have hne : k'' ≠ k := fun he => (List.nodup_cons.mp hnd).1 (he ▸ hk'')
        simp [hbkey, hne]
      rw [h1, h2, List.append_nil]
    · have hne : k' ≠ k := fun he => (List.nodup_cons.mp hnd).1 (he ▸ hk)
      have h1 : (f k').filter (fun b => key b == k) = [] := by
        apply List.filter_eq_nil_iff.mpr
        intro b hb
        have hbkey : key b = k' := hkeys k' (List.mem_cons_self _ _) b hb
        simp [hbkey, hne]
      rw [h1, List.nil_append]
      exact ih (List.nodup_cons.mp hnd).2 hk
        fun k'' h'' => hkeys k'' (List.mem_cons_of_mem _ h'')

/-- The sorted distinct group keys carry no duplicates. -/
theorem nodup_groupKeys (df : List VRow) : (groupKeys df).Nodup :=
  ((List.perm_insertionSort keyRel ((df.map rowKey).dedup)).symm).nodup
    (List.nodup_dedup _)

/-- A key appears among the group keys exactly when some row has it. -/
theorem mem_groupKeys {df : List VRow} {k : String × String} :
    k ∈ groupKeys df ↔ ∃ r ∈ df, rowKey r = k := by
  unfold groupKeys
  rw [(List.perm_insertionSort keyRel _).mem_iff, List.mem_dedup, List.mem_map]

/-- The block of the jitter output belonging to one group key. -/
noncomputable def jitterSegment (R : ℝ) (df : List VRow) (k : String × String) : List JRow :=
  (jitter_overlaps R df).filter (fun j => rowKey j.row == k)

/-- The output rows with key `k` are exactly the jittered group of `k`. -/
theorem jitterSegment_eq (R : ℝ) (df : List VRow) (k : String × String)
    (hk : ∃ r ∈ df, rowKey r = k) :
    jitterSegment R df k = jitterGroup R (groupRows df k) := by
  have hne : df.isEmpty = false := by
    rcases hk with ⟨r, hr, _⟩
    cases df
    · simp at hr
    · rfl
  unfold jitterSegment jitter_overlaps
  rw [hne]
  simp only [Bool.false_eq_true, if_false]
  exact flatMap_filter_single (fun k' => jitterGroup R (groupRows df k'))
    (fun j => rowKey j.row) k (groupKeys df) (nodup_groupKeys df)
    (mem_groupKeys.mpr hk)
    (fun k' _ j hj => key_of_mem_jitterGroup hj)

/-- Splitting a list into its blocks along distinct covering keys is a
permutation of the list. -/
theorem flatMap_filter_perm {K β : Type} [BEq K] [LawfulBEq K] (key : β → K) :
    ∀ (ks : List K) (l : List β), ks.Nodup → (∀ b ∈ l, key b ∈ ks) →
      List.Perm (ks.flatMap (fun k => l.filter (fun b => key b == k))) l := by
  intro ks
  induction ks with
  | nil =>
    intro l _ hcov
    have hl : l = [] := by
      cases l with
      | nil => rfl
      | cons b l => exact absurd (hcov b (List.mem_cons_self _ _)) (by simp)
    simp [hl]
  | cons k ks ih =>
    intro l hnd hcov
    rw [List.flatMap_cons]
    have hstep : ∀ k' ∈ ks, l.filter (fun b => key b == k') =
        (l.filter (fun b => ! (key b == k))).filter (fun b => key b == k') := by
      intro k' hk'
      rw [List.filter_filter]
      apply List.filter_congr
      intro b _
      by_cases hb : key b = k'
      · have hne : k' ≠ k := fun he => (List.nodup_cons.mp hnd).1 (he ▸ hk')
        simp [hb, hne]
      · simp [hb]
    rw [flatMap_congr hstep]
    have hcov' : ∀ b ∈ l.filter (fun b => ! (key b == k)), key b ∈ ks := by
      intro b hb
      have h1 := List.mem_filter.mp hb
      have h2 := hcov b h1.1
      rcases List.mem_cons.mp h2 with he | hm
      · exact absurd he (by simpa using h1.2)
      · exact hm
    have hperm := ih (l.filter (fun b => ! (key b == k))) (List.nodup_cons.mp hnd).2 hcov'
    exact ((hperm.append_left (l.filter (fun b => key b == k))).trans
      (List.filter_append_perm (fun b => key b == k) l))

/-- C8: the jitter engine never modifies the source rows: stripping the
display-only `lat_j`/`lon_j` columns from the output returns a
permutation of the input table, every row keeping the latitude and
longitude it had on entry. -/
theorem c8_jitter_never_writes_back (R : ℝ) (df : List VRow) :
    List.Perm ((jitter_overlaps R df).map JRow.row) df := by
  cases hdf : df with
  | nil => simp [jitter_overlaps]
  | cons r rs =>
    unfold jitter_overlaps
    simp only [List.isEmpty_cons, Bool.false_eq_true, if_false]
    rw [List.map_flatMap]
    rw [flatMap_congr (fun k _ => jitterGroup_map_row R (groupRows (r :: rs) k))]
    unfold groupRows
    exact flatMap_filter_perm rowKey (groupKeys (r :: rs)) (r :: rs)
      (nodup_groupKeys _)
      (fun b hb => mem_groupKeys.mpr ⟨b, hb, rfl⟩)

/-- C5: the jitter engine is the identity on its base cases: a group of
size one keeps its coordinates verbatim, and an empty table is returned
unchanged (no exception: the function is total). -/
theorem c5_jitter_identity_base_cases (R : ℝ) (df : List VRow)
    (k : String × String) (r : VRow) (h : groupRows df k = [r]) :
    jitterSegment R df k = [⟨r, r.latitude, r.longitude⟩] ∧
    jitter_overlaps R [] = [] := by
  constructor
  · have hrg : r ∈ groupRows df k := by rw [h]; exact List.mem_cons_self r []
    have hmem := List.mem_filter.mp hrg
    have hk : ∃ r' ∈ df, rowKey r' = k := ⟨r, hmem.1, by simpa using hmem.2⟩
    rw [jitterSegment_eq R df k hk, h]
    rfl
  · rfl

/-- A singleton row used for the concrete jitter base case (lat=10, lon=20). -/
def peruRow : VRow := ⟨"Peru", "cough", 10, 20⟩

/-- Witness for C5 at a singleton table whose row is at (10, 20). -/
theorem c5_jitter_identity_witness :
    groupRows [peruRow] ("Peru", "cough") = [peruRow] ∧
    jitterSegment (1/4) [peruRow] ("Peru", "cough") = [⟨peruRow, 10, 20⟩] :=
  ⟨rfl, (c5_jitter_identity_base_cases (1/4) [peruRow] ("Peru", "cough") peruRow rfl).1⟩

/-- Index-wise description of a jittered group with at least two members,
all at the same location: the i-th member receives the ring coordinates
at angle `2*pi*i/n`. -/
theorem jitterGroup_get_eq (R lat0 lon0 : ℝ) (g : List VRow)
    (hn : 2 ≤ g.length)
    (hloc : ∀ r ∈ g, r.latitude = lat0 ∧ r.longitude = lon0) :
    (jitterGroup R g).length = g.length ∧
    ∀ i, ∀ hi : i < (jitterGroup R g).length,
      ((jitterGroup R g).get ⟨i, hi⟩).lat_j =
        lat0 + R * Real.sin (2 * Real.pi * i / g.length) ∧
      ((jitterGroup R g).get ⟨i, hi⟩).lon_j =
        lon0 + (R * Real.cos (2 * Real.pi * i / g.length)) / lonScale lat0 := by
  match g with
  | [] => simp at hn
  | [r] => simp at hn
  | r0 :: r1 :: rest =>
    have h0 : r0.latitude = lat0 := (hloc r0 (List.mem_cons_self _ _)).1
    have h0' : r0.longitude = lon0 := (hloc r0 (List.mem_cons_self _ _)).2
    refine ⟨by simp [jitterGroup], ?_⟩
    intro i hi
    constructor
    · rw [List.get_eq_getElem]
      simp only [jitterGroup, List.getElem_mapIdx]
      rw [h0]
    · rw [List.get_eq_getElem]
      simp only [jitterGroup, List.getElem_mapIdx]
      rw [h0, h0']

/-- Two of the `n` equally spaced ring angles with equal sine and equal
cosine are the same angle. -/
theorem ring_angle_inj {n i j : ℕ} (hi : i < n) (hj : j < n)
    (hsin : Real.sin (2 * Real.pi * i / n) = Real.sin (2 * Real.pi * j / n))
    (hcos : Real.cos (2 * Real.pi * i / n) = Real.cos (2 * Real.pi * j / n)) :
    i = j := by
  have hnpos : 0 < n := Nat.pos_of_ne_zero (by rintro rfl; exact Nat.not_lt_zero i hi)
  have hn : (0:ℝ) < n := by exact_mod_cast hnpos
  have hpi := Real.pi_pos
  set x := 2 * Real.pi * i / n with hx
  set y := 2 * Real.pi * j / n with hy
  have hx0 : 0 ≤ x := by rw [hx]; positivity
  have hy0 : 0 ≤ y := by rw [hy]; positivity
  have hxlt : x < 2 * Real.pi := by
    rw [hx, div_lt_iff₀ hn]
    have hic : (i:ℝ) < n := by exact_mod_cast hi
    exact mul_lt_mul_of_pos_left hic (by positivity)
  have hylt : y < 2 * Real.pi := by
    rw [hy, div_lt_iff₀ hn]
    have hjc : (j:ℝ) < n := by exact_mod_cast hj
    exact mul_lt_mul_of_pos_left hjc (by positivity)
  have hcos1 : Real.cos (x - y) = 1 := by
    rw [Real.cos_sub, hsin, hcos]
    linear_combination Real.sin_sq_add_cos_sq y
  have hxy : x - y = 0 :=
    (Real.cos_eq_one_iff_of_lt_of_lt (by linarith) (by linarith)).mp hcos1
  have hxy' : x = y := sub_eq_zero.mp hxy
  rw [hx, hy] at hxy'
  have hn' : (n:ℝ) ≠ 0 := ne_of_gt hn
  field_simp at hxy'
  exact_mod_cast hxy'

/-- Equal lists have equal entries at equal positions. -/
theorem get_congr_of_eq {β : Type} {l1 l2 : List β} (h : l1 = l2) (i : ℕ)
    (h1 : i < l1.length) (h2 : i < l2.length) : l1.get ⟨i, h1⟩ = l2.get ⟨i, h2⟩ := by
  subst h
  rfl

/-- C4: in the jitter output, a group of `n > 1` rows sharing the key and
an identical location is laid out at the `n` equally spaced ring angles
`2*pi*i/n` (angle 0 included, a full turn excluded): the i-th row of the
group gets `lat_j = lat0 + R*sin(angle)` and
`lon_j = lon0 + R*cos(angle)/max(cos(radians lat0), 1e-6)`; each member
sits at scaled distance exactly `R` from the group origin, and the `n`
jittered coordinate pairs are pairwise distinct. -/
theorem c4_jitter_ring_layout (R lat0 lon0 : ℝ) (df : List VRow)
    (k : String × String) (n : ℕ)
    (hR : 0 < R) (hlen : (groupRows df k).length = n) (hn : 1 < n)
    (hloc : ∀ r ∈ groupRows df k, r.latitude = lat0 ∧ r.longitude = lon0) :
    (jitterSegment R df k).length = n ∧
    (∀ i, ∀ hi : i < (jitterSegment R df k).length,
      ((jitterSegment R df k).get ⟨i, hi⟩).lat_j =
        lat0 + R * Real.sin (2 * Real.pi * i / n) ∧
      ((jitterSegment R df k).get ⟨i, hi⟩).lon_j =
        lon0 + (R * Real.cos (2 * Real.pi * i / n)) / lonScale lat0 ∧
      Real.sqrt ((((jitterSegment R df k).get ⟨i, hi⟩).lat_j - lat0) ^ 2 +
        (lonScale lat0 * (((jitterSegment R df k).get ⟨i, hi⟩).lon_j - lon0)) ^ 2) = R) ∧
    (∀ i j, ∀ hi : i < (jitterSegment R df k).length,
      ∀ hj : j < (jitterSegment R df k).length, i ≠ j →
      ((jitterSegment R df k).get ⟨i, hi⟩).lat_j ≠
          ((jitterSegment R df k).get ⟨j, hj⟩).lat_j ∨
      ((jitterSegment R df k).get ⟨i, hi⟩).lon_j ≠
          ((jitterSegment R df k).get ⟨j, hj⟩).lon_j) := by
  have hglen : 2 ≤ (groupRows df k).length := by omega
  have hkex : ∃ r ∈ df, rowKey r = k := by
    cases hg : groupRows df k with
    | nil => rw [hg] at hglen; simp at hglen
    | cons r rest =>
      have hrg : r ∈ groupRows df k := by rw [hg]; exact List.mem_cons_self _ _
      have hmem := List.mem_filter.mp hrg
      exact ⟨r, hmem.1, by simpa using hmem.2⟩
  have hseg : jitterSegment R df k = jitterGroup R (groupRows df k) :=
    jitterSegment_eq R df k hkex
  have hmain := jitterGroup_get_eq R lat0 lon0 (groupRows df k) hglen hloc
  have hlen1 : (jitterSegment R df k).length = n := by rw [hseg, hmain.1, hlen]
  have hs : (0:ℝ) < lonScale lat0 :=
    lt_of_lt_of_le (by norm_num) (le_max_right _ _)
  have hform : ∀ i, ∀ hi : i < (jitterSegment R df k).length,
      ((jitterSegment R df k).get ⟨i, hi⟩).lat_j =
        lat0 + R * Real.sin (2 * Real.pi * i / n) ∧
      ((jitterSegment R df k).get ⟨i, hi⟩).lon_j =
        lon0 + (R * Real.cos (2 * Real.pi * i / n)) / lonScale lat0 := by
    intro i hi
    have hi2 : i < (jitterGroup R (groupRows df k)).length := by
      rw [← hseg]; exact hi
    have hget : (jitterSegment R df k).get ⟨i, hi⟩ =
        (jitterGroup R (groupRows df k)).get ⟨i, hi2⟩ :=
      get_congr_of_eq hseg i hi hi2
    obtain ⟨hA, hB⟩ := hmain.2 i hi2
    rw [hlen] at hA hB
    exact ⟨by rw [hget, hA], by rw [hget, hB]⟩
  refine ⟨hlen1, ?_, ?_⟩
  · intro i hi
    obtain ⟨hA, hB⟩ := hform i hi
    refine ⟨hA, hB, ?_⟩
    rw [hA, hB]
    have e1 : lat0 + R * Real.sin (2 * Real.pi * i / n) - lat0 =
        R * Real.sin (2 * Real.pi * i / n) := by ring
    have e2 : lonScale lat0 *
        (lon0 + R * Real.cos (2 * Real.pi * i / n) / lonScale lat0 - lon0) =
        R * Real.cos (2 * Real.pi * i / n) := by
      field_simp
      ring
    rw [e1, e2]
    have e3 : (R * Real.sin (2 * Real.pi * i / n)) ^ 2 +
        (R * Real.cos (2 * Real.pi * i / n)) ^ 2 = R ^ 2 := by
      linear_combination (R ^ 2) * Real.sin_sq_add_cos_sq (2 * Real.pi * i / n)
    rw [e3]
    exact Real.sqrt_sq hR.le
  · intro i j hi hj hne
    by_contra hcontra
    push_neg at hcontra
    obtain ⟨hlat, hlon⟩ := hcontra
    obtain ⟨hAi, hBi⟩ := hform i hi
    obtain ⟨hAj, hBj⟩ := hform j hj
    rw [hAi, hAj] at hlat
    rw [hBi, hBj] at hlon
    have hsin : Real.sin (2 * Real.pi * i / n) = Real.sin (2 * Real.pi * j / n) := by
      have := add_left_cancel hlat
      exact mul_left_cancel₀ (ne_of_gt hR) this
    have hcos : Real.cos (2 * Real.pi * i / n) = Real.cos (2 * Real.pi * j / n) := by
      have h1 := add_left_cancel hlon
      have h1' := congrArg (fun z => z * lonScale lat0) h1
      simp only [div_mul_cancel₀ _ (ne_of_gt hs)] at h1'
      exact mul_left_cancel₀ (ne_of_gt hR) h1'
    exact hne (ring_angle_inj (hlen1 ▸ hi) (hlen1 ▸ hj) hsin hcos)

/-- The four-row single-group table used as the concrete C4 input. -/
def peruTable : List VRow := [peruRow, peruRow, peruRow, peruRow]

/-- Witness for C4: four identical-location rows in one group, R = 1/4. -/
theorem c4_jitter_ring_witness :
    0 < (1/4 : ℝ) ∧
    (groupRows peruTable ("Peru", "cough")).length = 4 ∧
    (∀ r ∈ groupRows peruTable ("Peru", "cough"),
      r.latitude = 10 ∧ r.longitude = 20) ∧
    (jitterSegment (1/4) peruTable ("Peru", "cough")).length = 4 := by
  have hloc : ∀ r ∈ groupRows peruTable ("Peru", "cough"),
      r.latitude = 10 ∧ r.longitude = 20 := by
    intro r hr
    rw [show groupRows peruTable ("Peru", "cough") = peruTable from rfl] at hr
    simp only [peruTable, List.mem_cons, List.not_mem_nil, or_false] at hr
    rcases hr with rfl | rfl | rfl | rfl <;> exact ⟨rfl, rfl⟩
  exact ⟨by norm_num, rfl, hloc,
    (c4_jitter_ring_layout (1/4) 10 20 peruTable ("Peru", "cough") 4 (by norm_num) rfl
      (by norm_num) hloc).1⟩
